import Mathlib

/-!
Verification of the Game of Life engine in
`wasm-game-of-life/src/lib.rs` (struct `Universe` with operations
`new`, `tick`, `render`, and internal helpers `get_index`,
`live_neighbor_count`, plus the `fmt::Display` implementation).

The Rust code is shallowly embedded: `Cell` is a two-constructor
inductive, `Universe` a structure with `width`, `height` and a flat
`cells` list, and each Rust function becomes a Lean function with the
same structure (the nested `for` loops of `tick` and
`live_neighbor_count` become `List.foldl` over `List.range`, as a
Rust `for x in 0..n` iterates exactly the elements of `range n`).
Machine integers are modelled as `Nat`: the only constructor of a
`Universe` is `new` (the fields are private in the source), so every
reachable state is 64×64 and no `u32`/`usize` arithmetic can overflow
or wrap; vector indexing `cells[idx]` is modelled as `List.getD`
with default `Cell.Dead`, and every theorem that relies on an index
being read in bounds carries the corresponding well-formedness
hypotheses.
-/

/-- `enum Cell { Dead = 0, Alive = 1 }`. -/
inductive Cell where
  | Dead : Cell
  | Alive : Cell
deriving Repr, DecidableEq

/-- The numeric value of a cell, as in the Rust `cell as u8`
(`Dead = 0`, `Alive = 1`). -/
def Cell.toNat : Cell → Nat
  | Cell.Dead => 0
  | Cell.Alive => 1

/-- `pub struct Universe { width: u32, height: u32, cells: Vec<Cell> }`. -/
structure Universe where
  width : Nat
  height : Nat
  cells : List Cell
deriving Repr, DecidableEq

/-- Well-formedness: the invariant `cells.length == width * height`
stated in the spec's data model. -/
def Universe.WF (u : Universe) : Prop :=
  u.cells.length = u.width * u.height

instance (u : Universe) : Decidable u.WF := by
  unfold Universe.WF; infer_instance

/-- `fn get_index(&self, row: u32, column: u32) -> usize {
  (row * self.width + column) as usize }`. -/
def Universe.get_index (u : Universe) (row column : Nat) : Nat :=
  row * u.width + column

/-- The wrapped row coordinate `(row + delta_row) % self.height`
computed inside `live_neighbor_count`. -/
def Universe.neighbor_row (u : Universe) (row delta_row : Nat) : Nat :=
  (row + delta_row) % u.height

/-- The wrapped column coordinate `(column + delta_col) % self.width`
computed inside `live_neighbor_count`. -/
def Universe.neighbor_col (u : Universe) (column delta_col : Nat) : Nat :=
  (column + delta_col) % u.width

/-- `fn live_neighbor_count(&self, row: u32, column: u32) -> u8`:
two nested `for` loops over `delta_row in [self.height - 1, 0, 1]`
and `delta_col in [self.width - 1, 0, 1]`, skipping the
`(0, 0)` self offset, accumulating `self.cells[idx] as u8` at the
wrapped neighbor coordinate. -/
def Universe.live_neighbor_count (u : Universe) (row column : Nat) : Nat :=
  List.foldl
    (fun count delta_row =>
      List.foldl
        (fun count delta_col =>
          if delta_row = 0 ∧ delta_col = 0 then
            count
          else
            let neighbor_row := u.neighbor_row row delta_row
            let neighbor_col := u.neighbor_col column delta_col
            let idx := u.get_index neighbor_row neighbor_col
            count + (u.cells.getD idx Cell.Dead).toNat)
        count [u.width - 1, 0, 1])
    0 [u.height - 1, 0, 1]

/-- The `match (cell, live_neighbors)` inside `tick`, with the arms in
source order (first match wins): underpopulation, stasis,
overpopulation, reproduction, otherwise unchanged. -/
def next_cell (cell : Cell) (live_neighbors : Nat) : Cell :=
  if cell = Cell.Alive ∧ live_neighbors < 2 then Cell.Dead
  else if cell = Cell.Alive ∧ (live_neighbors = 2 ∨ live_neighbors = 3) then Cell.Alive
  else if cell = Cell.Alive ∧ live_neighbors > 3 then Cell.Dead
  else if cell = Cell.Dead ∧ live_neighbors = 3 then Cell.Alive
  else cell

/-- `pub fn tick(&mut self)`: clone `cells` into `next`, loop over all
`(row, col)` writing `next[idx] = next_cell`, where the cell state and
the neighbor count are read from the untouched `self.cells`, then
replace `self.cells` with `next`. -/
def Universe.tick (u : Universe) : Universe :=
  let next :=
    List.foldl
      (fun next row =>
        List.foldl
          (fun next col =>
            let idx := u.get_index row col
            let cell := u.cells.getD idx Cell.Dead
            let live_neighbors := u.live_neighbor_count row col
            next.set idx (next_cell cell live_neighbors))
          next (List.range u.width))
      u.cells (List.range u.height)
  { u with cells := next }

/-- `pub fn new() -> Universe`: width = height = 64, cell `i` Alive
iff `i % 2 == 0 || i % 7 == 0`. -/
def Universe.new : Universe :=
  let width := 64
  let height := 64
  let cells :=
    (List.range (width * height)).map
      (fun i => if i % 2 = 0 ∨ i % 7 = 0 then Cell.Alive else Cell.Dead)
  { width := width, height := height, cells := cells }

/-- The glyph chosen per cell in the `fmt::Display` implementation:
`if cell == Cell::Dead { '⬜' } else { '🟪' }`. -/
def Cell.symbol (cell : Cell) : Char :=
  if cell = Cell.Dead then '⬜' else '🟪'

/-- Rust `slice::chunks(n)`: successive sub-slices of length `n`, the
last possibly shorter.  (Rust panics on `n = 0`; the `[]` result in
that case is never relied on: the theorems about rendering assume a
positive width.) -/
def chunksOf (n : Nat) (l : List Cell) : List (List Cell) :=
  if h : n = 0 ∨ l = [] then []
  else l.take n :: chunksOf n (l.drop n)
termination_by l.length
decreasing_by
  push_neg at h
  obtain ⟨hn, hl⟩ := h
  have : 0 < l.length := List.length_pos.mpr hl
  have : 0 < n := Nat.pos_of_ne_zero hn
  simp [List.length_drop]
  omega

/-- The `fmt::Display` implementation: for each chunk of `width`
cells write one glyph per cell followed by `"\n"`, concatenated;
`render` returns this string. -/
def Universe.render (u : Universe) : String :=
  String.join
    ((chunksOf u.width u.cells).map
      (fun line => String.mk (line.map Cell.symbol) ++ "\n"))

set_option maxRecDepth 20000

example : Universe.new.width = 64 := rfl
example : Universe.new.cells.getD 0 Cell.Dead = Cell.Alive := by decide
example : Universe.new.cells.getD 3 Cell.Dead = Cell.Dead := by decide

/-- The horizontal blinker on a 3×3 torus: middle row alive. -/
def blinkerH : Universe :=
  { width := 3, height := 3,
    cells := [Cell.Dead, Cell.Dead, Cell.Dead,
              Cell.Alive, Cell.Alive, Cell.Alive,
              Cell.Dead, Cell.Dead, Cell.Dead] }

/-- The vertical blinker on a 3×3 torus: middle column alive. -/
def blinkerV : Universe :=
  { width := 3, height := 3,
    cells := [Cell.Dead, Cell.Alive, Cell.Dead,
              Cell.Dead, Cell.Alive, Cell.Dead,
              Cell.Dead, Cell.Alive, Cell.Dead] }

/-- The all-Alive 3×3 universe. -/
def allAlive3 : Universe :=
  { width := 3, height := 3,
    cells := [Cell.Alive, Cell.Alive, Cell.Alive,
              Cell.Alive, Cell.Alive, Cell.Alive,
              Cell.Alive, Cell.Alive, Cell.Alive] }

/-! ### Helper lemmas about the neighbor count -/

/-- One addend of the neighbor count loop: `0` for the skipped
`(0, 0)` self offset, otherwise the numeric value of the examined
neighbor cell. -/
def Universe.nbr (u : Universe) (row column delta_row delta_col : Nat) : Nat :=
  if delta_row = 0 ∧ delta_col = 0 then 0
  else (u.cells.getD
    (u.get_index (u.neighbor_row row delta_row) (u.neighbor_col column delta_col))
    Cell.Dead).toNat

theorem ite_add_self (c : Prop) [Decidable c] (a x : Nat) :
    (if c then a else a + x) = a + (if c then 0 else x) := by
  split <;> simp

/-- The nested accumulation loop of `live_neighbor_count`, written as
the explicit sum of its eight non-skipped addends (the `(0, 0)`
iteration adds nothing). -/
theorem live_neighbor_count_eq_sum (u : Universe) (row column : Nat) :
    u.live_neighbor_count row column =
      u.nbr row column (u.height - 1) (u.width - 1)
        + u.nbr row column (u.height - 1) 0
        + u.nbr row column (u.height - 1) 1
        + u.nbr row column 0 (u.width - 1)
        + u.nbr row column 0 1
        + u.nbr row column 1 (u.width - 1)
        + u.nbr row column 1 0
        + u.nbr row column 1 1 := by
  simp only [Universe.live_neighbor_count, List.foldl_cons, List.foldl_nil,
    Universe.nbr, ite_add_self]
  norm_num

theorem Cell.toNat_le_one (c : Cell) : c.toNat ≤ 1 := by
  cases c <;> simp [Cell.toNat]

theorem Cell.toNat_eq_ite (c : Cell) :
    c.toNat = if c = Cell.Alive then 1 else 0 := by
  cases c <;> simp [Cell.toNat]

theorem Universe.nbr_le_one (u : Universe) (row column dr dc : Nat) :
    u.nbr row column dr dc ≤ 1 := by
  unfold Universe.nbr
  split
  · omega
  · exact Cell.toNat_le_one _

/-- C6 — neighbor count range.  For every universe and every in-bounds
cell position, `live_neighbor_count` returns a value in `[0, 8]`
(the result is a natural number, so the lower bound `0` is intrinsic
and the theorem states the upper bound). -/
theorem C6_live_neighbor_count_le_eight (u : Universe) (row column : Nat)
    (_hrow : row < u.height) (_hcol : column < u.width) :
    u.live_neighbor_count row column ≤ 8 := by
  rw [live_neighbor_count_eq_sum]
  have h1 := u.nbr_le_one row column (u.height - 1) (u.width - 1)
  have h2 := u.nbr_le_one row column (u.height - 1) 0
  have h3 := u.nbr_le_one row column (u.height - 1) 1
  have h4 := u.nbr_le_one row column 0 (u.width - 1)
  have h5 := u.nbr_le_one row column 0 1
  have h6 := u.nbr_le_one row column 1 (u.width - 1)
  have h7 := u.nbr_le_one row column 1 0
  have h8 := u.nbr_le_one row column 1 1
  omega

theorem C6_witness :
    0 < blinkerH.height ∧ 1 < blinkerH.width ∧
      blinkerH.live_neighbor_count 0 1 ≤ 8 :=
  ⟨by decide, by decide,
    C6_live_neighbor_count_le_eight blinkerH 0 1 (by decide) (by decide)⟩

/-- C5 — toroidal wrap of the neighbor coordinates.  Inside
`live_neighbor_count` the "up" offset is `delta_row = height - 1` and
the "down" offset is `delta_row = 1` (symmetrically `width - 1` and
`1` for columns, and offset `0` keeps the coordinate).  For the cell
at row `0` the wrapped "up" row is `height - 1`; for the cell at row
`height - 1` the wrapped "down" row is `0`; for the cell at column
`0` the wrapped "left" column is `width - 1`; for the cell at column
`width - 1` the wrapped "right" column is `0`; and the offset-`0`
coordinate of an in-bounds cell is unchanged, so the "up" neighbor of
`(0, c)` is exactly `(height - 1, c)`, and symmetrically. -/
theorem C5_toroidal_wrap (u : Universe)
    (hh : 1 ≤ u.height) (hw : 1 ≤ u.width)
    (r c : Nat) (hr : r < u.height) (hc : c < u.width) :
    u.neighbor_row 0 (u.height - 1) = u.height - 1 ∧
    u.neighbor_row (u.height - 1) 1 = 0 ∧
    u.neighbor_col 0 (u.width - 1) = u.width - 1 ∧
    u.neighbor_col (u.width - 1) 1 = 0 ∧
    u.neighbor_row r 0 = r ∧
    u.neighbor_col c 0 = c := by
  unfold Universe.neighbor_row Universe.neighbor_col
  refine ⟨?_, ?_, ?_, ?_, ?_, ?_⟩
  · rw [Nat.zero_add]
    exact Nat.mod_eq_of_lt (by omega)
  · have e : u.height - 1 + 1 = u.height := by omega
    rw [e, Nat.mod_self]
  · rw [Nat.zero_add]
    exact Nat.mod_eq_of_lt (by omega)
  · have e : u.width - 1 + 1 = u.width := by omega
    rw [e, Nat.mod_self]
  · rw [Nat.add_zero]
    exact Nat.mod_eq_of_lt hr
  · rw [Nat.add_zero]
    exact Nat.mod_eq_of_lt hc

theorem C5_witness :
    1 ≤ blinkerH.height ∧ 1 ≤ blinkerH.width ∧
      (blinkerH.neighbor_row 0 (blinkerH.height - 1) = blinkerH.height - 1 ∧
       blinkerH.neighbor_row (blinkerH.height - 1) 1 = 0 ∧
       blinkerH.neighbor_col 0 (blinkerH.width - 1) = blinkerH.width - 1 ∧
       blinkerH.neighbor_col (blinkerH.width - 1) 1 = 0 ∧
       blinkerH.neighbor_row 1 0 = 1 ∧
       blinkerH.neighbor_col 1 0 = 1) :=
  ⟨by decide, by decide,
    C5_toroidal_wrap blinkerH (by decide) (by decide) 1 1 (by decide) (by decide)⟩

/-- C3 — deterministic seed.  In the universe built by `new`, cell `i`
is Alive exactly when `i % 2 = 0` or `i % 7 = 0`, for every
`i < 4096`. -/
theorem C3_new_seed (i : Nat) (hi : i < 4096) :
    Universe.new.cells.getD i Cell.Dead = Cell.Alive ↔
      (i % 2 = 0 ∨ i % 7 = 0) := by
  have h : Universe.new.cells.getD i Cell.Dead
      = if i % 2 = 0 ∨ i % 7 = 0 then Cell.Alive else Cell.Dead := by
    show ((List.range (64 * 64)).map
        (fun i => if i % 2 = 0 ∨ i % 7 = 0 then Cell.Alive else Cell.Dead)).getD
        i Cell.Dead = _
    rw [List.getD_eq_getElem?_getD, List.getElem?_map,
      List.getElem?_range (show i < 64 * 64 by omega)]
    rfl
  rw [h]
  by_cases hc : i % 2 = 0 ∨ i % 7 = 0 <;> simp [hc]

theorem C3_witness :
    0 < 4096 ∧
      (Universe.new.cells.getD 0 Cell.Dead = Cell.Alive ↔
        (0 % 2 = 0 ∨ 0 % 7 = 0)) :=
  ⟨by decide, C3_new_seed 0 (by decide)⟩

/-- C4, counterexample — on the 3×3 torus the horizontal blinker does
NOT turn into the vertical blinker: every Dead cell of `blinkerH` has
the whole Alive middle row among its wrapped neighbors (3 live
neighbors), so it is born, and `tick` does not produce `blinkerV`. -/
theorem C4_counterexample : blinkerH.tick ≠ blinkerV := by decide

/-- C4, amended — what one tick actually does to the 3×3 horizontal
blinker under the toroidal wrap: every Dead cell sees exactly the 3
Alive cells of the middle row (reproduction) and every Alive cell
sees exactly 2 Alive cells (stasis), so the successor is the
all-Alive 3×3 universe, not the vertical blinker. -/
theorem C4_amended_tick_blinker : blinkerH.tick = allAlive3 := by decide

/-! ### Helper lemmas about the generation-advance loop -/

theorem foldl_length_inv {α γ : Type} (f : List γ → α → List γ)
    (hf : ∀ acc x, (f acc x).length = acc.length) :
    ∀ (l : List α) (acc : List γ), (List.foldl f acc l).length = acc.length := by
  intro l
  induction l with
  | nil => intro acc; rfl
  | cons a t ih =>
      intro acc
      rw [List.foldl_cons, ih, hf]

/-- The value written by `tick` for the cell at `(row, col)`: the
update rule applied to the pre-tick cell state and the pre-tick
neighbor count. -/
def Universe.tickCell (u : Universe) (row col : Nat) : Cell :=
  next_cell (u.cells.getD (u.get_index row col) Cell.Dead)
    (u.live_neighbor_count row col)

theorem tick_cells_eq (u : Universe) :
    u.tick.cells =
      List.foldl
        (fun next row =>
          List.foldl
            (fun next col => next.set (u.get_index row col) (u.tickCell row col))
            next (List.range u.width))
        u.cells (List.range u.height) := rfl

/-- One inner (column) pass of the `tick` loop, characterized
pointwise: positions `row * width + col` for `col < w` now hold the
freshly computed cell, everything else is untouched. -/
theorem tick_inner_getElem (u : Universe) (row : Nat) :
    ∀ (w : Nat) (acc : List Cell) (j : Nat),
      (List.foldl
          (fun next col => next.set (u.get_index row col) (u.tickCell row col))
          acc (List.range w))[j]? =
        if row * u.width ≤ j ∧ j < row * u.width + w ∧ j < acc.length then
          some (u.tickCell row (j - row * u.width))
        else acc[j]? := by
  intro w
  induction w with
  | zero =>
      intro acc j
      simp only [List.range_zero, List.foldl_nil]
      rw [if_neg]
      rintro ⟨h1, h2, h3⟩
      omega
  | succ w ih =>
      intro acc j
      rw [List.range_succ, List.foldl_append, List.foldl_cons, List.foldl_nil]
      have hlen :
          (List.foldl
            (fun next col => next.set (u.get_index row col) (u.tickCell row col))
            acc (List.range w)).length = acc.length :=
        foldl_length_inv _ (fun a x => List.length_set a _ _) _ _
      rw [List.getElem?_set, hlen, ih]
      have hget : u.get_index row w = row * u.width + w := rfl
      rw [hget]
      by_cases hj : row * u.width + w = j
      · rw [if_pos hj]
        by_cases hlt : j < acc.length
        · rw [if_pos (by omega), if_pos ⟨by omega, by omega, hlt⟩]
          have : j - row * u.width = w := by omega
          rw [this]
        · rw [if_neg (by omega), if_neg (by rintro ⟨-, -, h⟩; omega),
            List.getElem?_eq_none (by omega)]
      · rw [if_neg hj]
        by_cases hin : row * u.width ≤ j ∧ j < row * u.width + w ∧ j < acc.length
        · rw [if_pos hin, if_pos ⟨hin.1, by omega, hin.2.2⟩]
        · rw [if_neg hin, if_neg (by rintro ⟨h1, h2, h3⟩; exact hin ⟨h1, by omega, h3⟩)]

/-- The full double loop of `tick`, characterized pointwise: position
`j < rows * width` now holds the freshly computed cell for
`(j / width, j % width)`, everything else is untouched. -/
theorem tick_outer_getElem (u : Universe) :
    ∀ (rows : Nat) (acc : List Cell) (j : Nat),
      (List.foldl
          (fun next row =>
            List.foldl
              (fun next col => next.set (u.get_index row col) (u.tickCell row col))
              next (List.range u.width))
          acc (List.range rows))[j]? =
        if j < rows * u.width ∧ j < acc.length then
          some (u.tickCell (j / u.width) (j % u.width))
        else acc[j]? := by
  intro rows
  induction rows with
  | zero =>
      intro acc j
      simp only [List.range_zero, List.foldl_nil]
      rw [if_neg]
      rintro ⟨h1, h2⟩
      omega
  | succ rows ih =>
      intro acc j
      rw [List.range_succ, List.foldl_append, List.foldl_cons, List.foldl_nil]
      have hlen :
          (List.foldl
            (fun next row =>
              List.foldl
                (fun next col => next.set (u.get_index row col) (u.tickCell row col))
                next (List.range u.width))
            acc (List.range rows)).length = acc.length :=
        foldl_length_inv _
          (fun a r => foldl_length_inv _ (fun a x => List.length_set a _ _) _ _) _ _
      rw [tick_inner_getElem, hlen, ih, Nat.succ_mul]
      by_cases hj : rows * u.width ≤ j ∧ j < rows * u.width + u.width ∧ j < acc.length
      · rw [if_pos hj, if_pos ⟨by omega, hj.2.2⟩]
        have hw : 0 < u.width := by omega
        have hdiv : j / u.width = rows :=
          Nat.div_eq_of_lt_le hj.1 (by rw [Nat.succ_mul]; omega)
        have hmod : j % u.width = j - rows * u.width := by
          have hb := Nat.div_add_mod j u.width
          rw [hdiv, Nat.mul_comm] at hb
          omega
        rw [hdiv, hmod]
      · rw [if_neg hj]
        by_cases hin : j < rows * u.width ∧ j < acc.length
        · rw [if_pos hin, if_pos ⟨by omega, hin.2⟩]
        · rw [if_neg hin, if_neg (by rintro ⟨h1, h2⟩; exact hj ⟨by omega, by omega, h2⟩)]
          -- the remaining case: j ≥ rows*width + width or j ≥ acc.length;
          -- both conditions fail on both sides.

theorem tick_cells_getD (u : Universe) (hwf : u.WF) (j : Nat)
    (hj : j < u.width * u.height) :
    u.tick.cells.getD j Cell.Dead = u.tickCell (j / u.width) (j % u.width) := by
  rw [List.getD_eq_getElem?_getD, tick_cells_eq, tick_outer_getElem]
  rw [if_pos ⟨by rw [Nat.mul_comm] at hj; exact hj, by rw [hwf]; exact hj⟩]
  rfl

/-- C2 — snapshot isolation.  The post-tick cell at linear index `i`
is exactly the update rule applied to the pre-tick cell at `i` and
the neighbor count taken over the pre-tick grid (the loop writes into
the cloned buffer and reads only `self.cells`, so no already-updated
value is ever read, regardless of iteration order). -/
theorem C2_tick_reads_prior_generation (u : Universe) (hwf : u.WF)
    (i : Nat) (hi : i < u.width * u.height) :
    u.tick.cells.getD i Cell.Dead =
      next_cell (u.cells.getD i Cell.Dead)
        (u.live_neighbor_count (i / u.width) (i % u.width)) := by
  rw [tick_cells_getD u hwf i hi]
  unfold Universe.tickCell
  have hidx : u.get_index (i / u.width) (i % u.width) = i := by
    unfold Universe.get_index
    rw [Nat.mul_comm]
    exact Nat.div_add_mod i u.width
  rw [hidx]

theorem C2_witness :
    blinkerH.WF ∧ 4 < blinkerH.width * blinkerH.height ∧
      blinkerH.tick.cells.getD 4 Cell.Dead =
        next_cell (blinkerH.cells.getD 4 Cell.Dead)
          (blinkerH.live_neighbor_count (4 / blinkerH.width) (4 % blinkerH.width)) :=
  ⟨by decide, by decide,
    C2_tick_reads_prior_generation blinkerH (by decide) 4 (by decide)⟩

/-- C1 — the ordered update rules.  For every well-formed universe and
every in-bounds `(row, col)`, the post-tick state of the cell is
determined from its pre-tick state and its pre-tick live-neighbor
count by the five ordered rules: underpopulation, stasis,
overpopulation, reproduction, otherwise unchanged (the remaining case
is exactly a Dead cell with a neighbor count other than 3). -/
theorem C1_tick_ordered_rules (u : Universe) (hwf : u.WF) (row col : Nat)
    (hr : row < u.height) (hc : col < u.width) :
    ((u.cells.getD (u.get_index row col) Cell.Dead = Cell.Alive ∧
        u.live_neighbor_count row col < 2) →
      u.tick.cells.getD (u.get_index row col) Cell.Dead = Cell.Dead) ∧
    ((u.cells.getD (u.get_index row col) Cell.Dead = Cell.Alive ∧
        (u.live_neighbor_count row col = 2 ∨ u.live_neighbor_count row col = 3)) →
      u.tick.cells.getD (u.get_index row col) Cell.Dead = Cell.Alive) ∧
    ((u.cells.getD (u.get_index row col) Cell.Dead = Cell.Alive ∧
        u.live_neighbor_count row col > 3) →
      u.tick.cells.getD (u.get_index row col) Cell.Dead = Cell.Dead) ∧
    ((u.cells.getD (u.get_index row col) Cell.Dead = Cell.Dead ∧
        u.live_neighbor_count row col = 3) →
      u.tick.cells.getD (u.get_index row col) Cell.Dead = Cell.Alive) ∧
    ((u.cells.getD (u.get_index row col) Cell.Dead = Cell.Dead ∧
        u.live_neighbor_count row col ≠ 3) →
      u.tick.cells.getD (u.get_index row col) Cell.Dead =
        u.cells.getD (u.get_index row col) Cell.Dead) := by
  have hidx : u.get_index row col < u.width * u.height := by
    have h1 : (row + 1) * u.width ≤ u.height * u.width :=
      Nat.mul_le_mul_right _ (by omega)
    have h2 : row * u.width + col < (row + 1) * u.width := by
      rw [Nat.succ_mul]; omega
    calc u.get_index row col = row * u.width + col := rfl
      _ < (row + 1) * u.width := h2
      _ ≤ u.height * u.width := h1
      _ = u.width * u.height := Nat.mul_comm _ _
  have hdiv : u.get_index row col / u.width = row := by
    unfold Universe.get_index
    exact Nat.div_eq_of_lt_le (Nat.le_add_right _ _) (by rw [Nat.succ_mul]; omega)
  have hmod : u.get_index row col % u.width = col := by
    unfold Universe.get_index
    have e : row * u.width + col = u.width * row + col := by ring
    rw [e, Nat.mul_add_mod]
    exact Nat.mod_eq_of_lt hc
  have key : u.tick.cells.getD (u.get_index row col) Cell.Dead =
      next_cell (u.cells.getD (u.get_index row col) Cell.Dead)
        (u.live_neighbor_count row col) := by
    rw [tick_cells_getD u hwf _ hidx, hdiv, hmod]
    rfl
  refine ⟨?_, ?_, ?_, ?_, ?_⟩
  · rintro ⟨hcell, hcnt⟩
    rw [key]
    unfold next_cell
    rw [if_pos ⟨hcell, hcnt⟩]
  · rintro ⟨hcell, hcnt⟩
    rw [key]
    unfold next_cell
    rw [if_neg (by rintro ⟨-, hlt⟩; rcases hcnt with h | h <;> omega),
      if_pos ⟨hcell, hcnt⟩]
  · rintro ⟨hcell, hcnt⟩
    rw [key]
    unfold next_cell
    rw [if_neg (by rintro ⟨-, hlt⟩; omega),
      if_neg (by rintro ⟨-, hor | hor⟩ <;> omega),
      if_pos ⟨hcell, hcnt⟩]
  · rintro ⟨hcell, hcnt⟩
    rw [key]
    unfold next_cell
    have hne : u.cells.getD (u.get_index row col) Cell.Dead ≠ Cell.Alive := by
      rw [hcell]; decide
    rw [if_neg (by rintro ⟨ha, -⟩; exact hne ha),
      if_neg (by rintro ⟨ha, -⟩; exact hne ha),
      if_neg (by rintro ⟨ha, -⟩; exact hne ha),
      if_pos ⟨hcell, hcnt⟩]
  · rintro ⟨hcell, hcnt⟩
    rw [key]
    unfold next_cell
    have hne : u.cells.getD (u.get_index row col) Cell.Dead ≠ Cell.Alive := by
      rw [hcell]; decide
    rw [if_neg (by rintro ⟨ha, -⟩; exact hne ha),
      if_neg (by rintro ⟨ha, -⟩; exact hne ha),
      if_neg (by rintro ⟨ha, -⟩; exact hne ha),
      if_neg (by rintro ⟨-, h3⟩; exact hcnt h3)]

theorem C1_witness :
    blinkerH.tick.cells.getD (blinkerH.get_index 1 1) Cell.Dead = Cell.Alive :=
  (C1_tick_ordered_rules blinkerH (by decide) 1 1 (by decide) (by decide)).2.1
    ⟨by decide, by decide⟩

/-- C7 — grid size invariant.  `new` builds a universe with
`cells.length = width * height`; `tick` keeps `width` and `height`
and the length of `cells` unchanged, hence preserves the invariant,
so it holds after any sequence of ticks. -/
theorem C7_grid_size_invariant :
    Universe.new.WF ∧
      ∀ u : Universe,
        u.tick.width = u.width ∧ u.tick.height = u.height ∧
          u.tick.cells.length = u.cells.length ∧ (u.WF → u.tick.WF) := by
  constructor
  · show Universe.new.cells.length = Universe.new.width * Universe.new.height
    simp [Universe.new]
  · intro u
    have hlen : u.tick.cells.length = u.cells.length := by
      rw [tick_cells_eq]
      exact foldl_length_inv _
        (fun a r => foldl_length_inv _ (fun a x => List.length_set a _ _) _ _) _ _
    refine ⟨rfl, rfl, hlen, fun hwf => ?_⟩
    show u.tick.cells.length = u.tick.width * u.tick.height
    rw [hlen]
    exact hwf

theorem C7_witness :
    Universe.new.WF ∧
      (blinkerH.tick.width = blinkerH.width ∧
        blinkerH.tick.height = blinkerH.height ∧
        blinkerH.tick.cells.length = blinkerH.cells.length ∧
        blinkerH.tick.WF) :=
  ⟨C7_grid_size_invariant.1,
    (C7_grid_size_invariant.2 blinkerH).1,
    (C7_grid_size_invariant.2 blinkerH).2.1,
    (C7_grid_size_invariant.2 blinkerH).2.2.1,
    (C7_grid_size_invariant.2 blinkerH).2.2.2 (by decide)⟩

/-! ### Helper lemmas about rendering -/

theorem join_data (l : List String) :
    (String.join l).data = (l.map String.data).flatten := by
  have h : ∀ (l : List String) (s : String),
      (List.foldl (· ++ ·) s l).data = s.data ++ (l.map String.data).flatten := by
    intro l
    induction l with
    | nil => intro s; simp
    | cons a t ih =>
        intro s
        rw [List.foldl_cons, ih]
        simp [String.data_append]
  have h2 := h l ""
  simpa [String.join] using h2

theorem take_eq_map_getD (l : List Cell) :
    ∀ w : Nat, w ≤ l.length →
      l.take w = (List.range w).map (fun c => l.getD c Cell.Dead) := by
  intro w
  induction w with
  | zero => intro _; simp
  | succ w ih =>
      intro hw
      rw [List.range_succ, List.map_append, List.take_succ, ih (by omega)]
      congr 1
      have hsome : l[w]? = some (l.getD w Cell.Dead) := by
        rw [List.getD_eq_getElem l Cell.Dead (by omega)]
        exact List.getElem?_eq_getElem (by omega)
      rw [hsome]
      rfl

/-- `chunks(width)` on a list of exactly `rows * width` cells yields
the `rows` full rows, in row-major order. -/
theorem chunksOf_eq_rows (w : Nat) (hw : 1 ≤ w) :
    ∀ (rows : Nat) (l : List Cell), l.length = rows * w →
      chunksOf w l =
        (List.range rows).map (fun r =>
          (List.range w).map (fun c => l.getD (r * w + c) Cell.Dead)) := by
  intro rows
  induction rows with
  | zero =>
      intro l hl
      have he : l = [] := List.length_eq_zero.mp (by omega)
      rw [he]
      simp [chunksOf]
  | succ rows ih =>
      intro l hl
      rw [Nat.succ_mul] at hl
      have hl1 : l ≠ [] := by
        intro e
        rw [e] at hl
        simp at hl
        omega
      unfold chunksOf
      rw [dif_neg (show ¬(w = 0 ∨ l = []) from fun hor =>
        hor.elim (fun h0 => by omega) (fun h0 => hl1 h0))]
      rw [List.range_succ_eq_map, List.map_cons]
      congr 1
      · rw [take_eq_map_getD l w (by omega)]
        apply List.map_congr_left
        intro c _
        rw [Nat.zero_mul, Nat.zero_add]
      · rw [ih (l.drop w) (by rw [List.length_drop]; omega), List.map_map]
        apply List.map_congr_left
        intro r _
        simp only [Function.comp]
        apply List.map_congr_left
        intro c _
        rw [List.getD_eq_getElem?_getD, List.getD_eq_getElem?_getD,
          List.getElem?_drop]
        have e : w + (r * w + c) = Nat.succ r * w + c := by
          rw [Nat.succ_mul]; ring
        rw [e]

/-- The glyph grid of a universe: `height` rows, each row the `width`
glyphs of its cells in column order (the specification's picture of
the rendering). -/
def renderLines (u : Universe) : List (List Char) :=
  (List.range u.height).map (fun row =>
    (List.range u.width).map (fun col =>
      Cell.symbol (u.cells.getD (u.get_index row col) Cell.Dead)))

/-- The rendered string, character by character: each row's glyphs
followed by a newline, all concatenated in row order. -/
theorem render_data_eq (u : Universe) (hwf : u.WF) (hw : 1 ≤ u.width) :
    (u.render).data =
      ((renderLines u).map (fun line => line ++ ['\n'])).flatten := by
  show (String.join ((chunksOf u.width u.cells).map
      (fun line => String.mk (line.map Cell.symbol) ++ "\n"))).data = _
  rw [join_data, List.map_map,
    chunksOf_eq_rows u.width hw u.height u.cells (by rw [hwf, Nat.mul_comm]),
    List.map_map]
  unfold renderLines
  rw [List.map_map]
  apply congrArg
  apply List.map_congr_left
  intro r _
  simp only [Function.comp]
  rw [String.data_append]
  show (List.map Cell.symbol _) ++ ['\n'] = _
  rw [List.map_map]
  rfl

theorem renderLines_row_lengths (u : Universe) :
    (renderLines u).map List.length = List.replicate u.height u.width := by
  unfold renderLines
  rw [List.map_map]
  have e : (List.length ∘ fun row =>
      (List.range u.width).map (fun col =>
        Cell.symbol (u.cells.getD (u.get_index row col) Cell.Dead)))
      = fun _ => u.width := by
    funext r
    simp [Function.comp]
  rw [e, List.map_const', List.length_range]

/-- C8 — render shape.  For every well-formed universe (the data
model of the spec has `cells.length = width * height` and positive
dimensions), the rendered string is, character for character, the
`height` rows in row order — each row being the `width` glyphs of its
cells left to right, with `'⬜'` for Dead and `'🟪'` for Alive — each
row followed by a line break; in particular there are exactly
`height` lines of exactly `width` glyphs each. -/
theorem C8_render_shape (u : Universe) (hwf : u.WF) (hw : 1 ≤ u.width) :
    (u.render).data =
        ((renderLines u).map (fun line => line ++ ['\n'])).flatten ∧
      (renderLines u).length = u.height ∧
      (renderLines u).map List.length = List.replicate u.height u.width :=
  ⟨render_data_eq u hwf hw,
    by unfold renderLines; rw [List.length_map, List.length_range],
    renderLines_row_lengths u⟩

theorem C8_witness :
    blinkerH.WF ∧ 1 ≤ blinkerH.width ∧
      ((blinkerH.render).data =
          ((renderLines blinkerH).map (fun line => line ++ ['\n'])).flatten ∧
        (renderLines blinkerH).length = blinkerH.height ∧
        (renderLines blinkerH).map List.length =
          List.replicate blinkerH.height blinkerH.width) :=
  ⟨by decide, by decide, C8_render_shape blinkerH (by decide) (by decide)⟩

/-- C9 — trailing newline.  A `'\n'` is written after every row,
including the last, so for every well-formed universe (positive
dimensions per the data model) the rendered string ends with a
newline and has exactly `height * (width + 1)` characters. -/
theorem C9_render_trailing_newline (u : Universe) (hwf : u.WF)
    (hw : 1 ≤ u.width) (hh : 1 ≤ u.height) :
    (u.render).data.getLast? = some '\n' ∧
      (u.render).data.length = u.height * (u.width + 1) := by
  constructor
  · rw [render_data_eq u hwf hw]
    obtain ⟨k, hk⟩ : ∃ k, u.height = k + 1 := ⟨u.height - 1, by omega⟩
    unfold renderLines
    rw [hk, List.range_succ, List.map_append, List.map_append,
      List.flatten_append]
    simp only [List.map_cons, List.map_nil, List.flatten_cons,
      List.flatten_nil, List.append_nil]
    rw [← List.append_assoc]
    exact List.getLast?_concat _
  · rw [render_data_eq u hwf hw, List.length_flatten, List.map_map]
    have e : (renderLines u).map (List.length ∘ fun line => line ++ ['\n'])
        = ((renderLines u).map List.length).map (fun n => n + 1) := by
      rw [List.map_map]
      apply List.map_congr_left
      intro line _
      simp [Function.comp]
    rw [e, renderLines_row_lengths, List.map_replicate, List.sum_replicate,
      smul_eq_mul]

/-! ### The Moore-neighborhood specification of the neighbor count -/

/-- The eight offsets of the Moore neighborhood, per the spec: the
3×3 offset combinations excluding the `(0, 0)` self offset. -/
def mooreOffsets : List (Int × Int) :=
  [(-1, -1), (-1, 0), (-1, 1), (0, -1), (0, 1), (1, -1), (1, 0), (1, 1)]

/-- The toroidally wrapped coordinate of one Moore neighbor, per the
spec's picture: mathematical modular addition of the offset. -/
def mooreNeighbor (u : Universe) (row col : Nat) (off : Int × Int) : Nat × Nat :=
  ((((row : Int) + off.1) % (u.height : Int)).toNat,
   (((col : Int) + off.2) % (u.width : Int)).toNat)

/-- The eight toroidal Moore neighbors of a cell (specification-side
definition, to be compared with what `live_neighbor_count` does). -/
def mooreNeighbors (u : Universe) (row col : Nat) : List (Nat × Nat) :=
  mooreOffsets.map (mooreNeighbor u row col)

/-- The number of Alive cells among the eight Moore neighbors
(specification-side definition). -/
def mooreCount (u : Universe) (row col : Nat) : Nat :=
  (mooreNeighbors u row col).countP
    (fun rc => decide (u.cells.getD (rc.1 * u.width + rc.2) Cell.Dead = Cell.Alive))

theorem int_wrap_sub (h r : Nat) (hh : 1 ≤ h) :
    (((r : Int) + (-1)) % (h : Int)).toNat = (r + (h - 1)) % h := by
  have e : (r : Int) + (-1) = ((r + (h - 1) : Nat) : Int) + (h : Int) * (-1) := by
    push_cast [Nat.cast_sub hh]
    ring
  rw [e, Int.add_mul_emod_self_left, ← Int.natCast_mod, Int.toNat_natCast]

theorem int_wrap_add (h r : Nat) :
    (((r : Int) + 1) % (h : Int)).toNat = (r + 1) % h := by
  have e : (r : Int) + 1 = ((r + 1 : Nat) : Int) := by push_cast; ring
  rw [e, ← Int.natCast_mod, Int.toNat_natCast]

theorem int_wrap_zero (h r : Nat) :
    (((r : Int) + 0) % (h : Int)).toNat = (r + 0) % h := by
  have e : (r : Int) + 0 = ((r + 0 : Nat) : Int) := by push_cast; ring
  rw [e, ← Int.natCast_mod, Int.toNat_natCast]

/-- The eight Moore neighbors, written with the same natural-number
modular arithmetic that `live_neighbor_count` performs (`-1` becomes
adding `dimension - 1`). -/
theorem mooreNeighbors_eq (u : Universe) (row col : Nat)
    (hh : 1 ≤ u.height) (hw : 1 ≤ u.width) :
    mooreNeighbors u row col =
      [((row + (u.height - 1)) % u.height, (col + (u.width - 1)) % u.width),
       ((row + (u.height - 1)) % u.height, (col + 0) % u.width),
       ((row + (u.height - 1)) % u.height, (col + 1) % u.width),
       ((row + 0) % u.height, (col + (u.width - 1)) % u.width),
       ((row + 0) % u.height, (col + 1) % u.width),
       ((row + 1) % u.height, (col + (u.width - 1)) % u.width),
       ((row + 1) % u.height, (col + 0) % u.width),
       ((row + 1) % u.height, (col + 1) % u.width)] := by
  unfold mooreNeighbors mooreOffsets mooreNeighbor
  simp only [List.map_cons, List.map_nil]
  rw [int_wrap_sub u.height row hh, int_wrap_sub u.width col hw,
    int_wrap_add u.height row, int_wrap_add u.width col,
    int_wrap_zero u.height row, int_wrap_zero u.width col]

theorem wrap_sub_closed (h r : Nat) (hh : 1 ≤ h) (hr : r < h) :
    (r + (h - 1)) % h = if r = 0 then h - 1 else r - 1 := by
  by_cases h0 : r = 0
  · rw [if_pos h0, h0, Nat.zero_add]
    exact Nat.mod_eq_of_lt (by omega)
  · rw [if_neg h0]
    have e : r + (h - 1) = h + (r - 1) := by omega
    rw [e, Nat.add_mod_left]
    exact Nat.mod_eq_of_lt (by omega)

theorem wrap_add_closed (h r : Nat) (hh : 1 ≤ h) (hr : r < h) :
    (r + 1) % h = if r = h - 1 then 0 else r + 1 := by
  by_cases h0 : r = h - 1
  · rw [if_pos h0, h0]
    have e : h - 1 + 1 = h := by omega
    rw [e, Nat.mod_self]
  · rw [if_neg h0]
    exact Nat.mod_eq_of_lt (by omega)

theorem wrap_sub_ne_self (h r : Nat) (h3 : 3 ≤ h) (hr : r < h) :
    (r + (h - 1)) % h ≠ r := by
  rw [wrap_sub_closed h r (by omega) hr]
  split_ifs with h0 <;> omega

theorem wrap_add_ne_self (h r : Nat) (h3 : 3 ≤ h) (hr : r < h) :
    (r + 1) % h ≠ r := by
  rw [wrap_add_closed h r (by omega) hr]
  split_ifs with h0 <;> omega

theorem wrap_sub_ne_add (h r : Nat) (h3 : 3 ≤ h) (hr : r < h) :
    (r + (h - 1)) % h ≠ (r + 1) % h := by
  rw [wrap_sub_closed h r (by omega) hr, wrap_add_closed h r (by omega) hr]
  split_ifs with h0 h1 <;> omega

theorem nodup_eight_pairs (r1 r2 r3 c1 c2 c3 : Nat)
    (hr12 : r1 ≠ r2) (hr13 : r1 ≠ r3) (hr23 : r2 ≠ r3)
    (hc12 : c1 ≠ c2) (hc13 : c1 ≠ c3) (hc23 : c2 ≠ c3) :
    ([(r1, c1), (r1, c2), (r1, c3), (r2, c1), (r2, c3),
      (r3, c1), (r3, c2), (r3, c3)] : List (Nat × Nat)).Nodup := by
  simp only [List.nodup_cons, List.mem_cons, List.mem_singleton,
    List.not_mem_nil, Prod.mk.injEq, not_or, List.nodup_nil, and_true,
    true_and, not_false_iff]
  omega

theorem center_not_mem_eight (r1 r2 r3 c1 c2 c3 : Nat)
    (hr12 : r1 ≠ r2) (hr23 : r2 ≠ r3) (hc12 : c1 ≠ c2) (hc23 : c2 ≠ c3) :
    (r2, c2) ∉ ([(r1, c1), (r1, c2), (r1, c3), (r2, c1), (r2, c3),
      (r3, c1), (r3, c2), (r3, c3)] : List (Nat × Nat)) := by
  simp only [List.mem_cons, List.not_mem_nil, Prod.mk.injEq, not_or, or_false]
  omega

/-- C10 — the neighbor count is the Moore-neighborhood count.  For
every well-formed universe with both dimensions at least 3 and every
in-bounds cell, `live_neighbor_count` equals the number of Alive
cells among the eight toroidal Moore neighbors; those eight neighbors
are pairwise distinct positions, and the cell itself is not among
them (so the cell is never counted).  The dimension bound is needed
because for a dimension of 1 or 2 the wrapped offsets are not
distinct modulo the dimension. -/
theorem C10_neighbor_count_is_moore (u : Universe) (_hwf : u.WF)
    (hw : 3 ≤ u.width) (hh : 3 ≤ u.height)
    (row col : Nat) (hr : row < u.height) (hc : col < u.width) :
    u.live_neighbor_count row col = mooreCount u row col ∧
      (mooreNeighbors u row col).Nodup ∧
      (row, col) ∉ mooreNeighbors u row col := by
  have hh1 : 1 ≤ u.height := by omega
  have hw1 : 1 ≤ u.width := by omega
  have hrow0 : (row + 0) % u.height = row := by
    rw [Nat.add_zero]; exact Nat.mod_eq_of_lt hr
  have hcol0 : (col + 0) % u.width = col := by
    rw [Nat.add_zero]; exact Nat.mod_eq_of_lt hc
  refine ⟨?_, ?_, ?_⟩
  · rw [live_neighbor_count_eq_sum]
    unfold mooreCount
    rw [mooreNeighbors_eq u row col hh1 hw1]
    simp only [List.countP_cons, List.countP_nil, decide_eq_true_eq]
    unfold Universe.nbr Universe.neighbor_row Universe.neighbor_col
      Universe.get_index
    rw [if_neg (by omega : ¬(u.height - 1 = 0 ∧ u.width - 1 = 0)),
      if_neg (by omega : ¬(u.height - 1 = 0 ∧ (0 : Nat) = 0)),
      if_neg (by omega : ¬(u.height - 1 = 0 ∧ (1 : Nat) = 0)),
      if_neg (by omega : ¬((0 : Nat) = 0 ∧ u.width - 1 = 0)),
      if_neg (by omega : ¬((0 : Nat) = 0 ∧ (1 : Nat) = 0)),
      if_neg (by omega : ¬((1 : Nat) = 0 ∧ u.width - 1 = 0)),
      if_neg (by omega : ¬((1 : Nat) = 0 ∧ (0 : Nat) = 0)),
      if_neg (by omega : ¬((1 : Nat) = 0 ∧ (1 : Nat) = 0))]
    simp only [Cell.toNat_eq_ite]
    omega
  · rw [mooreNeighbors_eq u row col hh1 hw1, hrow0, hcol0]
    exact nodup_eight_pairs _ row _ _ col _
      (wrap_sub_ne_self u.height row hh hr)
      (wrap_sub_ne_add u.height row hh hr)
      (Ne.symm (wrap_add_ne_self u.height row hh hr))
      (wrap_sub_ne_self u.width col hw hc)
      (wrap_sub_ne_add u.width col hw hc)
      (Ne.symm (wrap_add_ne_self u.width col hw hc))
  · rw [mooreNeighbors_eq u row col hh1 hw1, hrow0, hcol0]
    exact center_not_mem_eight _ row _ _ col _
      (wrap_sub_ne_self u.height row hh hr)
      (Ne.symm (wrap_add_ne_self u.height row hh hr))
      (wrap_sub_ne_self u.width col hw hc)
      (Ne.symm (wrap_add_ne_self u.width col hw hc))

theorem C10_witness :
    blinkerH.live_neighbor_count 1 1 = mooreCount blinkerH 1 1 ∧
      (mooreNeighbors blinkerH 1 1).Nodup ∧
      (1, 1) ∉ mooreNeighbors blinkerH 1 1 :=
  C10_neighbor_count_is_moore blinkerH (by decide) (by decide) (by decide)
    1 1 (by decide) (by decide)

theorem C9_witness :
    blinkerH.WF ∧ 1 ≤ blinkerH.width ∧ 1 ≤ blinkerH.height ∧
      ((blinkerH.render).data.getLast? = some '\n' ∧
        (blinkerH.render).data.length = blinkerH.height * (blinkerH.width + 1)) :=
  ⟨by decide, by decide, by decide,
    C9_render_trailing_newline blinkerH (by decide) (by decide) (by decide)⟩

